import Mathlib

/-!
Shallow embedding of the core of the `version` tag-generator CLI
(`main.go`, current iteration) together with theorems checking the
natural-language specification against it.

Modelling conventions:
* Go `int` is embedded as `Int` (unbounded; the tool only ever handles
  version components parsed from decimal digit strings, and
  `strconv.Atoi` aborts the process on overflow, so machine-width
  wraparound is unreachable in the modelled paths).
* The go-git repository gateway is embedded as explicit data: the tag
  store is an association list from tag name to target commit id, and
  commit enumeration is a list of commit-id strings.
* Regular-expression matching of `^(module)/(channel)/v(\d+)\.(\d+)\.(\d+)$`
  (with the module and channel interpolated into the pattern) is embedded
  as literal string matching, which coincides with the regex semantics
  whenever the interpolated names contain no regex metacharacters — the
  data-model invariant restricts them to lowercase ASCII letters.
-/

/-- Structure `Version` from main.go: `type Version struct { Major, Minor, Patch int }`. -/
structure Version where
  major : Int
  minor : Int
  patch : Int
deriving DecidableEq, Repr

/-- The comparison performed by `SemVerList.Less` in main.go:
compare `Major`, then `Minor`, then `Patch`. -/
def Version.less (a b : Version) : Bool :=
  if a.major ≠ b.major then decide (a.major < b.major)
  else if a.minor ≠ b.minor then decide (a.minor < b.minor)
  else decide (a.patch < b.patch)

/-- Reflexive closure of `Version.less`: `a` is at most `b`. -/
def vle (a b : Version) : Prop := a.less b = true ∨ a = b

/-- The version-triple computation inside `generateNextVersion` in main.go:
increment `Patch`; if the new `Patch` exceeds 9, carry into `Minor`; if the
resulting `Minor` exceeds 9, carry into `Major`. -/
def nextVersion (v : Version) : Version :=
  let a : Version := { v with patch := v.patch + 1 }
  let b : Version := if a.patch > 9 then { a with minor := a.minor + 1, patch := 0 } else a
  if b.minor > 9 then { b with major := b.major + 1, minor := 0 } else b

/-- The tag-name formatting of `fmt.Sprintf("%s/%s/v%d.%d.%d", ...)` in main.go. -/
def versionTag (moduleName releaseChannel : String) (v : Version) : String :=
  moduleName ++ "/" ++ releaseChannel ++ "/v" ++
    toString v.major ++ "." ++ toString v.minor ++ "." ++ toString v.patch

/-- Function `generateNextVersion` from main.go: format the carried triple as a tag name. -/
def generateNextVersion (moduleName releaseChannel : String) (currentVersion : Version) : String :=
  versionTag moduleName releaseChannel (nextVersion currentVersion)

/-- The rollover rule in the words of the specification (section 4.3):
`patch1 = patch+1; if patch1 > 9 then patch1 = 0, minor1 = minor+1;
if minor1 (post-carry) > 9 then minor1 = 0, major1 = major+1`.
Kept separate from `nextVersion` so the code can be compared against the
specification sentence. -/
def specNextVersion (v : Version) : Version :=
  let patch1 := v.patch + 1
  let minor1 := if patch1 > 9 then v.minor + 1 else v.minor
  let major1 := if minor1 > 9 then v.major + 1 else v.major
  ⟨major1, if minor1 > 9 then 0 else minor1, if patch1 > 9 then 0 else patch1⟩

/-! ### Tag parsing and `parseCurrentVersion` -/

/-- Splits a character list at every occurrence of `sep`, keeping empty
pieces, as `strings.Split` does; `acc` holds the current piece reversed. -/
def splitOnCharAux (sep : Char) : List Char → List Char → List (List Char)
  | [], acc => [acc.reverse]
  | c :: cs, acc =>
    if c = sep then acc.reverse :: splitOnCharAux sep cs []
    else splitOnCharAux sep cs (c :: acc)

/-- Nonempty and all decimal digits: what one `(\d+)` capture group accepts. -/
def allDigits (cs : List Char) : Bool :=
  !cs.isEmpty && cs.all (fun c => c.isDigit)

/-- Decimal value of a digit string, as `strconv.Atoi` computes it
(overflow aborts the Go process and is unreachable here). -/
def charsToNat (cs : List Char) : Nat :=
  cs.foldl (fun n c => 10 * n + (c.toNat - 48)) 0

/-- Matches the version part `(\d+)\.(\d+)\.(\d+)` anchored at the end:
exactly three dot-separated nonempty digit groups. -/
def parseTriple (cs : List Char) : Option Version :=
  match splitOnCharAux '.' cs [] with
  | [a, b, c] =>
    if allDigits a && allDigits b && allDigits c then
      some ⟨(charsToNat a : Int), (charsToNat b : Int), (charsToNat c : Int)⟩
    else none
  | _ => none

/-- If `pat` is a literal leading pattern of `s`, returns the remainder. -/
def dropPat : List Char → List Char → Option (List Char)
  | [], s => some s
  | _ :: _, [] => none
  | p :: ps, c :: cs => if p = c then dropPat ps cs else none

/-- One iteration of the matching loop in `parseCurrentVersion`: does `tag`
match `^(module)/(rc)/v(\d+)\.(\d+)\.(\d+)$`?  The module and channel are
interpolated into the pattern by the Go code; for names made of lowercase
letters (the data-model invariant) this is literal matching. -/
def matchTag (moduleName rc tag : String) : Option Version :=
  match dropPat (moduleName ++ "/" ++ rc ++ "/v").data tag.data with
  | some rest => parseTriple rest
  | none => none

/-- The version list built by `parseCurrentVersion`: for each requested
channel (outer loop), every tag matching that channel (inner loop). -/
def matchingVersions (tags : List String) (moduleName : String)
    (releaseChannel : List String) : List Version :=
  releaseChannel.foldl (fun acc rc => acc ++ tags.filterMap (matchTag moduleName rc)) []

/-- Descending insertion. -/
def insertDesc (v : Version) : List Version → List Version
  | [] => [v]
  | w :: ws => if w.less v then v :: w :: ws else w :: insertDesc v ws

/-- A descending sort with respect to `Version.less`, standing in for
`sort.Sort(sort.Reverse(versions))`; `parseCurrentVersion` only uses the
head of the result, which for any correct descending sort is a maximum. -/
def sortDesc : List Version → List Version
  | [] => []
  | v :: vs => insertDesc v (sortDesc vs)

/-- Function `parseCurrentVersion` from main.go, with the tag enumeration already in
hand: collect versions of tags matching the module and any requested
channel, sort descending, and return the head, or the zero version when
nothing matches (which also covers an empty tag list). -/
def parseCurrentVersion (tags : List String) (moduleName : String)
    (releaseChannel : List String) : Version :=
  match sortDesc (matchingVersions tags moduleName releaseChannel) with
  | [] => ⟨0, 0, 0⟩
  | v :: _ => v

/-- Function `parseCurrentVersion` including its interaction with the repository
gateway: main.go opens the repository and enumerates tags, and on any
failure (open, `Tags()`, or iteration) it logs the error and returns the
zero version with a `nil` error. -/
def parseCurrentVersionGw (tagsResult : Except String (List String))
    (moduleName : String) (releaseChannel : List String) : Except String Version :=
  match tagsResult with
  | .error _ => .ok ⟨0, 0, 0⟩
  | .ok tags => .ok (parseCurrentVersion tags moduleName releaseChannel)

/-! ### Commit resolution and tag creation -/

/-- Spec section 7 error taxonomy for the repository-facing operations. -/
inductive GitError
  | repoAccess
  | commitNotFound
  | tagExists
deriving DecidableEq, Repr

/-- The repository gateway as data: `headId` is `repo.Head()` (`none`
models a gateway failure), `logIds` is the commit history from HEAD in
reverse-chronological order as enumerated by `repo.Log` (used by
`getLastNCommits`), and `objectIds` is the enumeration of every commit
object in the object store, in storage order, as produced by
`repo.CommitObjects()` (used by the short-hash scan in `createGitTag`). -/
structure CommitGateway where
  headId : Option String
  logIds : List String
  objectIds : List String
deriving DecidableEq, Repr

/-- Model of `strings.HasPrefix s pat`: does `s` start with the literal `pat`? -/
def startsWithLit (s pat : String) : Bool :=
  (dropPat pat.data s.data).isSome

/-- The `iter.ForEach` scan in `createGitTag`: first id in the enumeration
that starts with `ref`, stopping at the first match. -/
def findFirstMatch (ref : String) : List String → Option String
  | [] => none
  | c :: cs => if startsWithLit c ref then some c else findFirstMatch ref cs

/-- The commit-resolution logic of `createGitTag` in main.go: an empty
reference resolves to HEAD (failures there are gateway errors); a
40-character reference is taken as a full id and then checked for
existence with `repo.CommitObject`; any other reference is scanned as a
short prefix over `repo.CommitObjects()`, the resolved id is
existence-checked, and no match yields a commit-not-found error. -/
def resolveCommit (gw : CommitGateway) (commitHashStr : String) : Except GitError String :=
  if commitHashStr = "" then
    match gw.headId with
    | some h => .ok h
    | none => .error .repoAccess
  else if commitHashStr.length = 40 then
    if commitHashStr ∈ gw.objectIds then .ok commitHashStr
    else .error .commitNotFound
  else
    match findFirstMatch commitHashStr gw.objectIds with
    | some h => if h ∈ gw.objectIds then .ok h else .error .commitNotFound
    | none => .error .commitNotFound

/-- Function `getLastNCommits` from main.go: the first `n` entries of the
reverse-chronological history from HEAD. -/
def getLastNCommits (gw : CommitGateway) (n : Nat) : List String :=
  gw.logIds.take n

/-- The repository's tag store: an association list from tag name to target
commit id, in creation order. -/
abbrev RepoTags := List (String × String)

/-- Target commit of an existing tag, if the tag name is present. -/
def lookupTag (st : RepoTags) (tag : String) : Option String :=
  match st.find? (fun p => p.1 == tag) with
  | some p => some p.2
  | none => none

/-- Modelled from the spec: the gateway capability `createTag` (sections 4.5
and 6). Its implementation is go-git's `repo.CreateTag`, outside this
repository's source; per the spec it refuses an existing tag name with a
hard failure and leaves the store untouched, and otherwise adds a
reference from the tag name to the commit id. -/
def tagCreate (st : RepoTags) (tag commitId : String) : Except GitError RepoTags :=
  match lookupTag st tag with
  | some _ => .error .tagExists
  | none => .ok (st ++ [(tag, commitId)])

/-- Function `createGitTag` from main.go: resolve the commit reference, then create
the tag bound to the resolved commit, refusing duplicates. -/
def createGitTag (gw : CommitGateway) (st : RepoTags) (tag commitHashStr : String) :
    Except GitError RepoTags :=
  match resolveCommit gw commitHashStr with
  | .error e => .error e
  | .ok h => tagCreate st tag h

/-- Model of `strings.ContainsRune(s, ' ')`. -/
def hasSpace (s : String) : Bool := s.data.contains ' '

/-- Model of `len(strings.TrimSpace(s)) == 0`: every character is whitespace. -/
def allWhitespace (s : String) : Bool := s.data.all (fun c => c.isWhitespace)

/-- The multi-channel split in main.go: if the channel value contains a
comma it is split into several channels, otherwise used as is. -/
def splitChannels (s : String) : List String :=
  if s.data.contains ',' then (splitOnCharAux ',' s.data []).map (fun cs => String.mk cs)
  else [s]

/-- Outcome classification for a whole run of the tail of `main`. -/
inductive RunError
  | validationFailed
  | gitFailed (e : GitError)
deriving DecidableEq, Repr

/-- The per-channel tag-creation loop at the end of `main`: generate the
next tag name for each channel and create it; the first failure stops the
loop, keeping the tags already created. -/
def tagLoop (gw : CommitGateway) (moduleName commitHashStr : String) (current : Version) :
    List String → RepoTags → RepoTags × Option RunError
  | [], st => (st, none)
  | r :: rs, st =>
    match createGitTag gw st (generateNextVersion moduleName r current) commitHashStr with
    | .error e => (st, some (.gitFailed e))
    | .ok st2 => tagLoop gw moduleName commitHashStr current rs st2

/-- The tail of `main` from the name-validation checks onward: reject names
containing a space, or blank names, before anything else; then split the
channel list, resolve the shared current version from the existing tags,
and run the tag-creation loop. -/
def mainPipeline (gw : CommitGateway) (st : RepoTags)
    (moduleName releaseChannel commitHashStr : String) : RepoTags × Option RunError :=
  if hasSpace moduleName || hasSpace releaseChannel then (st, some .validationFailed)
  else if allWhitespace moduleName then (st, some .validationFailed)
  else if allWhitespace releaseChannel then (st, some .validationFailed)
  else
    tagLoop gw moduleName commitHashStr
      (parseCurrentVersion (st.map (fun p => p.1)) moduleName (splitChannels releaseChannel))
      (splitChannels releaseChannel) st

instance instDecEqExcept {ε α : Type} [DecidableEq ε] [DecidableEq α] :
    DecidableEq (Except ε α) := fun a b =>
  match a, b with
  | .error e1, .error e2 =>
    if h : e1 = e2 then isTrue (by rw [h]) else isFalse (fun hh => h (Except.error.inj hh))
  | .error _, .ok _ => isFalse (fun hh => Except.noConfusion hh)
  | .ok _, .error _ => isFalse (fun hh => Except.noConfusion hh)
  | .ok a1, .ok a2 =>
    if h : a1 = a2 then isTrue (by rw [h]) else isFalse (fun hh => h (Except.ok.inj hh))

/-! ### Interactive multi-selection engine -/

/-- Abstract key events, standing for the key strings matched in
`multiSelectModel.Update`: up is "up"/"k", down is "down"/"j", toggle is
the space key, confirm is "enter", quit is "ctrl+c"/"q"/"esc". -/
inductive Key
  | up
  | down
  | toggle
  | confirm
  | quit
deriving DecidableEq, Repr

/-- Structure `multiSelectModel` from main.go.  Its `selected` field is a Go
`map[int]bool`, embedded as an association list in insertion order; the
Go map's iteration order over these keys is unspecified, so every
harvesting step below takes the iteration order as an explicit input. -/
structure MultiSelectModel where
  choices : List String
  cursor : Nat
  selected : List (Nat × Bool)
  done : Bool
deriving DecidableEq, Repr

/-- Go map read `m[k]`: the stored value, or `false` when absent. -/
def mapGet (m : List (Nat × Bool)) (k : Nat) : Bool :=
  match m.find? (fun p => p.1 == k) with
  | some p => p.2
  | none => false

/-- Go map write `m[k] = v`: update in place when the key is present,
append otherwise. -/
def mapSet (m : List (Nat × Bool)) (k : Nat) (v : Bool) : List (Nat × Bool) :=
  if (m.find? (fun p => p.1 == k)).isSome then
    m.map (fun p => if p.1 == k then (k, v) else p)
  else m ++ [(k, v)]

/-- The keys currently present in the map, in insertion order. -/
def mapKeys (m : List (Nat × Bool)) : List Nat := m.map (fun p => p.1)

/-- Method `multiSelectModel.Update` from main.go: one key event.  The second
component is whether a `tea.Quit` command was issued (quit and confirm
both end the program; only confirm marks the model done). -/
def MultiSelectModel.update (m : MultiSelectModel) : Key → MultiSelectModel × Bool
  | .quit => (m, true)
  | .confirm => ({ m with done := true }, true)
  | .toggle =>
    if m.choices.length > 0 then
      ({ m with selected := mapSet m.selected m.cursor (!mapGet m.selected m.cursor) }, false)
    else (m, false)
  | .up => (if m.cursor > 0 then { m with cursor := m.cursor - 1 } else m, false)
  | .down => (if m.cursor < m.choices.length - 1 then { m with cursor := m.cursor + 1 } else m, false)

/-- Initial model built by `runInteractiveMultiSelection`: cursor 0, empty
selection map, not done. -/
def initMulti (choices : List String) : MultiSelectModel :=
  ⟨choices, 0, [], false⟩

/-- The bubbletea event loop: process one key at a time until a quit
command is issued; remaining events are not consumed. -/
def processEvents (m : MultiSelectModel) : List Key → MultiSelectModel
  | [] => m
  | k :: ks =>
    match m.update k with
    | (m2, true) => m2
    | (m2, false) => processEvents m2 ks

/-- The harvesting loop of `runInteractiveMultiSelection`:
`for i, selected := range m.selected { if selected && i < len(m.choices) { append } }`.
`order` is the map-iteration order, a permutation of the map's keys that
Go leaves unspecified. -/
def harvestItems (m : MultiSelectModel) (order : List Nat) : List String :=
  (order.filter (fun i => mapGet m.selected i && decide (i < m.choices.length))).map
    (fun i => m.choices.getD i "")

/-- The chosen items in their original list order: indices ascending. -/
def chosenInOrder (m : MultiSelectModel) : List String :=
  ((List.range m.choices.length).filter
      (fun i => mapGet m.selected i && decide (i < m.choices.length))).map
    (fun i => m.choices.getD i "")

/-- Function `runInteractiveMultiSelection` from main.go: refuse an empty choice
list, run the event loop, then if the model was confirmed harvest the
toggled items in map-iteration order and join them with commas, failing
when nothing was selected; an unconfirmed end is "no selection made". -/
def runInteractiveMultiSelection (choices : List String) (events : List Key)
    (order : List Nat) : Except String String :=
  if choices.length = 0 then .error "no choices available"
  else if (processEvents (initMulti choices) events).done then
    if (harvestItems (processEvents (initMulti choices) events) order).length = 0 then
      .error "no items selected"
    else .ok (String.intercalate "," (harvestItems (processEvents (initMulti choices) events) order))
  else .error "no selection made"

/-! ### Theorems -/

theorem nextVersion_eq_spec (v : Version) : nextVersion v = specNextVersion v := by
  cases v with
  | mk ma mi pa =>
    simp only [nextVersion, specNextVersion]
    split_ifs <;> simp_all

/-- Claim C1: `generateNextVersion` increments the patch component and applies
the fixed-radix-10 carry (patch over 9 resets to 0 and bumps minor; the
resulting minor over 9 resets to 0 and bumps major), and in particular
maps {1,2,3} to `m/c/v1.2.4`, {1,5,9} to `m/c/v1.6.0`, {2,9,9} to
`m/c/v3.0.0` and {0,0,0} to `m/c/v0.0.1`. -/
theorem C1_generateNextVersion_rollover :
    (∀ v : Version, nextVersion v = specNextVersion v) ∧
    generateNextVersion "m" "c" ⟨1, 2, 3⟩ = "m/c/v1.2.4" ∧
    generateNextVersion "m" "c" ⟨1, 5, 9⟩ = "m/c/v1.6.0" ∧
    generateNextVersion "m" "c" ⟨2, 9, 9⟩ = "m/c/v3.0.0" ∧
    generateNextVersion "m" "c" ⟨0, 0, 0⟩ = "m/c/v0.0.1" :=
  ⟨nextVersion_eq_spec, by decide, by decide, by decide, by decide⟩

/-- Claim C10: for an input version whose minor and patch lie in [0,9], the
version encoded in the generated tag name again has minor and patch in [0,9]
and is strictly greater than the input under the `SemVerList.Less`
lexicographic order (only the major component can grow without bound). -/
theorem C10_nextVersion_bounds_and_increase (m c : String) (v : Version)
    (hminlo : 0 ≤ v.minor) (hminhi : v.minor ≤ 9)
    (hpatlo : 0 ≤ v.patch) (hpathi : v.patch ≤ 9) :
    (0 ≤ (nextVersion v).minor ∧ (nextVersion v).minor ≤ 9 ∧
     0 ≤ (nextVersion v).patch ∧ (nextVersion v).patch ≤ 9) ∧
    v.less (nextVersion v) = true ∧
    generateNextVersion m c v = versionTag m c (nextVersion v) := by
  refine ⟨?_, ?_, rfl⟩
  · cases v with
    | mk ma mi pa =>
      simp only [nextVersion]
      split_ifs <;> simp_all <;> omega
  · cases v with
    | mk ma mi pa =>
      simp only [nextVersion, Version.less]
      split_ifs <;> simp_all <;> omega

theorem C10_witness :
    (0 ≤ (nextVersion ⟨1, 2, 3⟩).minor ∧ (nextVersion ⟨1, 2, 3⟩).minor ≤ 9 ∧
     0 ≤ (nextVersion ⟨1, 2, 3⟩).patch ∧ (nextVersion ⟨1, 2, 3⟩).patch ≤ 9) ∧
    Version.less ⟨1, 2, 3⟩ (nextVersion ⟨1, 2, 3⟩) = true ∧
    generateNextVersion "m" "c" ⟨1, 2, 3⟩ = versionTag "m" "c" (nextVersion ⟨1, 2, 3⟩) :=
  C10_nextVersion_bounds_and_increase "m" "c" ⟨1, 2, 3⟩
    (by decide) (by decide) (by decide) (by decide)

theorem vle_refl (a : Version) : vle a a := Or.inr rfl

theorem less_total (a b : Version) : a.less b = true ∨ b.less a = true ∨ a = b := by
  cases a with
  | mk am an ap =>
    cases b with
    | mk bm bn bp =>
      simp only [Version.less, Version.mk.injEq]
      split_ifs <;> simp_all <;> omega

theorem less_trans {a b c : Version} (h1 : a.less b = true) (h2 : b.less c = true) :
    a.less c = true := by
  cases a with
  | mk am an ap =>
    cases b with
    | mk bm bn bp =>
      cases c with
      | mk cm cn cp =>
        simp only [Version.less] at h1 h2 ⊢
        split_ifs at h1 h2 ⊢ <;> simp_all <;> omega

theorem vle_of_not_less {a b : Version} (h : ¬ b.less a = true) : vle a b := by
  rcases less_total a b with h1 | h1 | h1
  · exact Or.inl h1
  · exact absurd h1 h
  · exact Or.inr h1

theorem vle_less_trans {a b c : Version} (h1 : vle a b) (h2 : b.less c = true) :
    a.less c = true := by
  rcases h1 with h1 | h1
  · exact less_trans h1 h2
  · rw [h1]; exact h2

theorem insertDesc_ne_nil (v : Version) (l : List Version) : insertDesc v l ≠ [] := by
  cases l with
  | nil => simp [insertDesc]
  | cons w ws =>
    simp only [insertDesc]
    split <;> simp

theorem sortDesc_head_max (l : List Version) :
    (sortDesc l = [] → l = []) ∧
    ∀ h t, sortDesc l = h :: t → h ∈ l ∧ ∀ x ∈ l, vle x h := by
  induction l with
  | nil => simp [sortDesc]
  | cons v vs ih =>
    obtain ⟨ihnil, ihmax⟩ := ih
    constructor
    · intro hs
      exact absurd hs (insertDesc_ne_nil v (sortDesc vs))
    · intro h t hht
      have hht2 : insertDesc v (sortDesc vs) = h :: t := hht
      cases hsv : sortDesc vs with
      | nil =>
        have hvs : vs = [] := ihnil hsv
        subst hvs
        rw [hsv] at hht2
        simp only [insertDesc, List.cons.injEq] at hht2
        obtain ⟨hh, _⟩ := hht2
        subst hh
        refine ⟨List.mem_cons_self _ _, ?_⟩
        intro x hx
        rcases List.mem_cons.mp hx with hx | hx
        · subst hx; exact vle_refl _
        · exact absurd hx (List.not_mem_nil x)
      | cons w ws =>
        obtain ⟨hwmem, hwmax⟩ := ihmax w ws hsv
        rw [hsv] at hht2
        by_cases hlt : w.less v = true
        · rw [insertDesc, if_pos hlt] at hht2
          injection hht2 with hh _
          subst hh
          refine ⟨List.mem_cons_self _ _, ?_⟩
          intro x hx
          rcases List.mem_cons.mp hx with hx | hx
          · subst hx; exact vle_refl _
          · exact Or.inl (vle_less_trans (hwmax x hx) hlt)
        · rw [insertDesc, if_neg hlt] at hht2
          injection hht2 with hh _
          subst hh
          refine ⟨List.mem_cons_of_mem _ hwmem, ?_⟩
          intro x hx
          rcases List.mem_cons.mp hx with hx | hx
          · subst hx; exact vle_of_not_less hlt
          · exact hwmax x hx

theorem matchingVersions_empty_tags_aux (m : String) (cs : List String) :
    ∀ acc : List Version,
      List.foldl (fun acc rc => acc ++ List.filterMap (matchTag m rc) []) acc cs = acc := by
  induction cs with
  | nil => intro acc; rfl
  | cons c cs ih =>
    intro acc
    rw [List.foldl_cons, show acc ++ List.filterMap (matchTag m c) [] = acc from by simp]
    exact ih acc

theorem matchingVersions_empty_tags (m : String) (cs : List String) :
    matchingVersions [] m cs = [] :=
  matchingVersions_empty_tags_aux m cs []

/-- Claim C2: `parseCurrentVersion` returns the maximum version, under the
lexicographic (major, minor, patch) order, across all tags matching the
module and any of the requested channels (the maximum over the union), and
returns the zero version as a valid result when nothing matches — in
particular for an empty tag list, and on the spec example the maximum
across channels dev, staging and prod is {2,0,0}. -/
theorem C2_parseCurrentVersion_max (tags : List String) (moduleName : String)
    (channels : List String) :
    (∀ w ∈ matchingVersions tags moduleName channels,
        vle w (parseCurrentVersion tags moduleName channels)) ∧
    (parseCurrentVersion tags moduleName channels ∈ matchingVersions tags moduleName channels ∨
      (matchingVersions tags moduleName channels = [] ∧
        parseCurrentVersion tags moduleName channels = ⟨0, 0, 0⟩)) ∧
    parseCurrentVersion ["api/dev/v1.0.0", "api/staging/v2.0.0", "api/prod/v1.5.0"]
      "api" ["dev", "staging", "prod"] = ⟨2, 0, 0⟩ ∧
    parseCurrentVersion [] moduleName channels = ⟨0, 0, 0⟩ := by
  have hnil : parseCurrentVersion [] moduleName channels = ⟨0, 0, 0⟩ := by
    unfold parseCurrentVersion
    rw [matchingVersions_empty_tags]
    rfl
  obtain ⟨hznil, hzmax⟩ := sortDesc_head_max (matchingVersions tags moduleName channels)
  cases hs : sortDesc (matchingVersions tags moduleName channels) with
  | nil =>
    have hms : matchingVersions tags moduleName channels = [] := hznil hs
    have hpv : parseCurrentVersion tags moduleName channels = ⟨0, 0, 0⟩ := by
      unfold parseCurrentVersion
      rw [hs]
    refine ⟨?_, Or.inr ⟨hms, hpv⟩, by decide, hnil⟩
    intro w hw
    rw [hms] at hw
    exact absurd hw (List.not_mem_nil w)
  | cons h t =>
    obtain ⟨hmem, hmax⟩ := hzmax h t hs
    have hpv : parseCurrentVersion tags moduleName channels = h := by
      unfold parseCurrentVersion
      rw [hs]
    rw [hpv]
    exact ⟨hmax, Or.inl hmem, by decide, hnil⟩

theorem C2_witness :
    vle ⟨1, 5, 0⟩ (parseCurrentVersion
      ["api/dev/v1.0.0", "api/staging/v2.0.0", "api/prod/v1.5.0"]
      "api" ["dev", "staging", "prod"]) :=
  (C2_parseCurrentVersion_max
      ["api/dev/v1.0.0", "api/staging/v2.0.0", "api/prod/v1.5.0"]
      "api" ["dev", "staging", "prod"]).1 ⟨1, 5, 0⟩ (by decide)

/-- Claim C4 counterexample: when the gateway fails to enumerate tags during
version resolution, `parseCurrentVersion` does not surface an error at all —
it logs the failure and returns the zero version {0,0,0} with a nil error,
i.e. exactly the normal successful result the claim says can never happen. -/
theorem C4_counterexample :
    parseCurrentVersionGw (.error "cannot enumerate tags") "m" ["c"] = .ok ⟨0, 0, 0⟩ := rfl

/-- Claim C4 as amended: a gateway failure while enumerating tags during
version resolution is converted into the zero version {0,0,0} returned as a
successful (nil-error) result, and only a successful enumeration feeds the
normal maximum computation; the run is not aborted at this point. -/
theorem C4_gateway_failure_swallowed :
    (∀ (e : String) (m : String) (cs : List String),
        parseCurrentVersionGw (.error e) m cs = .ok ⟨0, 0, 0⟩) ∧
    (∀ (tags : List String) (m : String) (cs : List String),
        parseCurrentVersionGw (.ok tags) m cs = .ok (parseCurrentVersion tags m cs)) :=
  ⟨fun _ _ _ => rfl, fun _ _ _ => rfl⟩

theorem findFirstMatch_mem (ref : String) (l : List String) (h : String)
    (hf : findFirstMatch ref l = some h) : h ∈ l := by
  induction l with
  | nil => exact absurd hf (by simp [findFirstMatch])
  | cons c cs ih =>
    rw [findFirstMatch] at hf
    by_cases hc : startsWithLit c ref = true
    · rw [if_pos hc] at hf
      injection hf with hf
      subst hf
      exact List.mem_cons_self _ _
    · rw [if_neg hc] at hf
      exact List.mem_cons_of_mem _ (ih hf)

/-- Claim C5 counterexample: the short-hash scan in `createGitTag` runs over
`repo.CommitObjects()` — the enumeration of all commit objects in storage
order — not over the reverse-chronological commit history from HEAD.  With
a history `[A, B]` (A newest) but storage order `[B, A]`, and both ids
matching the short reference "a", the code resolves "a" to B while a scan
of the history from HEAD would pick A. -/
theorem C5_counterexample :
    resolveCommit
      ⟨some "aaaaaaaaaaaaaaaaaaaaaaaaaaaaaaaaaaaaaaaa",
       ["aaaaaaaaaaaaaaaaaaaaaaaaaaaaaaaaaaaaaaaa",
        "abaaaaaaaaaaaaaaaaaaaaaaaaaaaaaaaaaaaaaa"],
       ["abaaaaaaaaaaaaaaaaaaaaaaaaaaaaaaaaaaaaaa",
        "aaaaaaaaaaaaaaaaaaaaaaaaaaaaaaaaaaaaaaaa"]⟩ "a"
      = .ok "abaaaaaaaaaaaaaaaaaaaaaaaaaaaaaaaaaaaaaa" ∧
    findFirstMatch "a"
      ["aaaaaaaaaaaaaaaaaaaaaaaaaaaaaaaaaaaaaaaa",
       "abaaaaaaaaaaaaaaaaaaaaaaaaaaaaaaaaaaaaaa"]
      = some "aaaaaaaaaaaaaaaaaaaaaaaaaaaaaaaaaaaaaaaa" ∧
    ("abaaaaaaaaaaaaaaaaaaaaaaaaaaaaaaaaaaaaaa" : String)
      ≠ "aaaaaaaaaaaaaaaaaaaaaaaaaaaaaaaaaaaaaaaa" := by
  refine ⟨by decide, by decide, by decide⟩

/-- Claim C5 as amended: for a non-empty reference shorter than 40
characters, resolution is a linear scan over the gateway's commit-object
enumeration (`repo.CommitObjects()`, all commit objects in storage order,
not necessarily reverse-chronological from HEAD), returning the first id
that starts with the reference and stopping there; if no id matches,
resolution fails with CommitNotFound. -/
theorem C5_short_hash_scan (gw : CommitGateway) (ref : String)
    (hne : ref ≠ "") (hlen : ref.length ≠ 40) :
    resolveCommit gw ref =
      match findFirstMatch ref gw.objectIds with
      | some h => .ok h
      | none => .error .commitNotFound := by
  unfold resolveCommit
  rw [if_neg hne, if_neg hlen]
  cases hf : findFirstMatch ref gw.objectIds with
  | none => rfl
  | some h =>
    have hmem : h ∈ gw.objectIds := findFirstMatch_mem ref gw.objectIds h hf
    simp only [if_pos hmem]

theorem C5_witness :
    resolveCommit ⟨some "headid", ["abaa"], ["abaa"]⟩ "ab" =
      match findFirstMatch "ab" (["abaa"] : List String) with
      | some h => .ok h
      | none => .error .commitNotFound :=
  C5_short_hash_scan ⟨some "headid", ["abaa"], ["abaa"]⟩ "ab" (by decide) (by decide)

/-- Claim C8 counterexample: the literal reference "current" is not a
sentinel for HEAD.  Only the empty reference maps to HEAD; "current" (7
characters, not 40) goes down the short-prefix path, and since no
hexadecimal commit id starts with "current" the resolution fails with
CommitNotFound instead of resolving to HEAD. -/
theorem C8_counterexample :
    resolveCommit
      ⟨some "ffffffffffffffffffffffffffffffffffffffff",
       ["ffffffffffffffffffffffffffffffffffffffff"],
       ["ffffffffffffffffffffffffffffffffffffffff"]⟩ "current"
      = .error .commitNotFound ∧
    (Except.error GitError.commitNotFound : Except GitError String)
      ≠ .ok "ffffffffffffffffffffffffffffffffffffffff" := by
  refine ⟨by decide, by decide⟩

/-- Claim C8 as amended: a full 40-character id resolves to itself when the
commit exists and fails with CommitNotFound when it does not; an empty
reference resolves to HEAD; the literal reference "current" is treated as
an ordinary short prefix (the interactive "Current commit (HEAD)" choice
leaves the reference empty instead), so whenever no commit id starts with
"current" it fails with CommitNotFound. -/
theorem C8_commit_resolution :
    (∀ (gw : CommitGateway) (s : String), s.length = 40 → s ∈ gw.objectIds →
        resolveCommit gw s = .ok s) ∧
    (∀ (gw : CommitGateway) (s : String), s.length = 40 → s ∉ gw.objectIds →
        resolveCommit gw s = .error .commitNotFound) ∧
    (∀ (gw : CommitGateway) (h : String), gw.headId = some h →
        resolveCommit gw "" = .ok h) ∧
    (∀ gw : CommitGateway, findFirstMatch "current" gw.objectIds = none →
        resolveCommit gw "current" = .error .commitNotFound) := by
  refine ⟨?_, ?_, ?_, ?_⟩
  · intro gw s hlen hmem
    have hne : s ≠ "" := by
      intro h
      rw [h] at hlen
      exact absurd hlen (by decide)
    unfold resolveCommit
    rw [if_neg hne, if_pos hlen, if_pos hmem]
  · intro gw s hlen hmem
    have hne : s ≠ "" := by
      intro h
      rw [h] at hlen
      exact absurd hlen (by decide)
    unfold resolveCommit
    rw [if_neg hne, if_pos hlen, if_neg hmem]
  · intro gw h hh
    unfold resolveCommit
    rw [if_pos rfl, hh]
  · intro gw hf
    unfold resolveCommit
    rw [if_neg (by decide : ¬ ("current" : String) = ""),
      if_neg (by decide : ¬ ("current" : String).length = 40), hf]

theorem C8_witness :
    resolveCommit
      ⟨some "ffffffffffffffffffffffffffffffffffffffff",
       ["ffffffffffffffffffffffffffffffffffffffff"],
       ["ffffffffffffffffffffffffffffffffffffffff"]⟩
      "ffffffffffffffffffffffffffffffffffffffff"
      = .ok "ffffffffffffffffffffffffffffffffffffffff" :=
  C8_commit_resolution.1
    ⟨some "ffffffffffffffffffffffffffffffffffffffff",
     ["ffffffffffffffffffffffffffffffffffffffff"],
     ["ffffffffffffffffffffffffffffffffffffffff"]⟩
    "ffffffffffffffffffffffffffffffffffffffff" (by decide) (by decide)

/-- Claim C6 counterexample: reserved characters other than space are not
validated.  A module name containing the separator "/" passes the checks
and the run proceeds all the way to a tag-creating call, producing the tag
`a/b/prod/v0.0.1`; a channel value containing "," is not rejected either —
it is interpreted as the multi-channel separator and two tags are created. -/
theorem C6_counterexample :
    mainPipeline ⟨some "h", [], []⟩ [] "a/b" "prod" "" =
      ([("a/b/prod/v0.0.1", "h")], none) ∧
    ("a/b" : String).data.contains '/' = true ∧
    mainPipeline ⟨some "h", [], []⟩ [] "ab" "c,d" "" =
      ([("ab/c/v0.0.1", "h"), ("ab/d/v0.0.1", "h")], none) ∧
    ("c,d" : String).data.contains ',' = true := by
  refine ⟨by decide, by decide, by decide, by decide⟩

/-- Claim C6 as amended: if the module name or the release channel contains
a space, the run fails with a validation error before any tag-creating
call occurs (the tag store is returned unchanged); the characters "/" and
"," are not validated — "," in the channel value acts as the multi-channel
separator and both characters flow into created tag names. -/
theorem C6_space_validation (gw : CommitGateway) (st : RepoTags)
    (moduleName releaseChannel commitHashStr : String)
    (h : hasSpace moduleName = true ∨ hasSpace releaseChannel = true) :
    mainPipeline gw st moduleName releaseChannel commitHashStr =
      (st, some .validationFailed) := by
  unfold mainPipeline
  have hc : (hasSpace moduleName || hasSpace releaseChannel) = true := by
    rcases h with h | h <;> simp [h]
  rw [if_pos hc]

theorem C6_witness :
    mainPipeline ⟨some "h", [], []⟩ [] "a b" "c" "" = ([], some .validationFailed) :=
  C6_space_validation ⟨some "h", [], []⟩ [] "a b" "c" "" (Or.inl (by decide))

theorem lookupTag_append (st : RepoTags) (t h : String) (x : String × String)
    (hl : lookupTag st t = some h) : lookupTag (st ++ [x]) t = some h := by
  unfold lookupTag at hl ⊢
  cases hf : st.find? (fun p => p.1 == t) with
  | none => rw [hf] at hl; exact absurd hl (by simp)
  | some p =>
    rw [hf] at hl
    rw [List.find?_append, hf]
    exact hl

theorem tagCreate_preserves (st st2 : RepoTags) (t h tag cid : String)
    (hl : lookupTag st t = some h) (hc : tagCreate st tag cid = .ok st2) :
    lookupTag st2 t = some h := by
  unfold tagCreate at hc
  cases hlt : lookupTag st tag with
  | some _ => rw [hlt] at hc; exact absurd hc (by simp)
  | none =>
    rw [hlt] at hc
    injection hc with hc
    subst hc
    exact lookupTag_append st t h _ hl

theorem tagLoop_preserves (gw : CommitGateway) (moduleName commitHashStr : String)
    (current : Version) (rs : List String) (st : RepoTags) (t h : String)
    (hl : lookupTag st t = some h) :
    lookupTag (tagLoop gw moduleName commitHashStr current rs st).1 t = some h := by
  induction rs generalizing st with
  | nil => exact hl
  | cons r rs ih =>
    rw [tagLoop]
    cases hc : createGitTag gw st (generateNextVersion moduleName r current) commitHashStr with
    | error e => exact hl
    | ok st2 =>
      have hc2 := hc
      unfold createGitTag at hc2
      cases hr : resolveCommit gw commitHashStr with
      | error e => rw [hr] at hc2; exact absurd hc2 (by simp)
      | ok hid =>
        rw [hr] at hc2
        exact ih st2 (tagCreate_preserves st st2 t h _ hid hl hc2)

/-- Claim C7: creating a tag whose name already exists fails hard with a
duplicate-tag error (go-git's `ErrTagExists`, surfaced unchanged by
`createGitTag`), and the pre-existing tag keeps its target commit: no run
of the pipeline ever rebinds an existing tag name. -/
theorem C7_duplicate_tag (st : RepoTags) (tag cid hOld : String)
    (hex : lookupTag st tag = some hOld) :
    tagCreate st tag cid = .error .tagExists ∧
    ∀ (gw : CommitGateway) (moduleName releaseChannel commitHashStr : String),
      lookupTag (mainPipeline gw st moduleName releaseChannel commitHashStr).1 tag
        = some hOld := by
  constructor
  · unfold tagCreate
    rw [hex]
  · intro gw moduleName releaseChannel commitHashStr
    unfold mainPipeline
    split_ifs with h1 h2 h3
    · exact hex
    · exact hex
    · exact hex
    · exact tagLoop_preserves gw moduleName commitHashStr _ _ st tag hOld hex

theorem C7_witness :
    tagCreate [("t", "h1")] "t" "h2" = .error .tagExists ∧
    lookupTag (mainPipeline ⟨some "h", [], []⟩ [("t", "h1")] "m" "c" "").1 "t"
      = some "h1" :=
  ⟨(C7_duplicate_tag [("t", "h1")] "t" "h2" "h1" (by decide)).1,
   (C7_duplicate_tag [("t", "h1")] "t" "h2" "h1" (by decide)).2 ⟨some "h", [], []⟩ "m" "c" ""⟩

theorem mapGet_mem_keys {s : List (Nat × Bool)} {i : Nat} (h : mapGet s i = true) :
    i ∈ mapKeys s := by
  unfold mapGet at h
  cases hf : s.find? (fun p => p.1 == i) with
  | none => rw [hf] at h; exact absurd h (by simp)
  | some p =>
    have hp := List.find?_some hf
    have hmem : p ∈ s := List.mem_of_find?_eq_some hf
    exact List.mem_map.mpr ⟨p, hmem, by simpa using hp⟩

theorem mapKeys_mapSet (s : List (Nat × Bool)) (k : Nat) (v : Bool) :
    mapKeys (mapSet s k v) = mapKeys s ∨
      (mapKeys (mapSet s k v) = mapKeys s ++ [k] ∧ k ∉ mapKeys s) := by
  unfold mapSet
  by_cases hf : (s.find? (fun p => p.1 == k)).isSome
  · left
    rw [if_pos hf]
    unfold mapKeys
    rw [List.map_map]
    apply List.map_congr_left
    intro p _
    by_cases hp : (p.1 == k) = true
    · have hpk : p.1 = k := by simpa using hp
      simp [Function.comp, hp, hpk]
    · simp [Function.comp, hp]
  · right
    rw [if_neg hf]
    have hnone : s.find? (fun p => p.1 == k) = none := by
      cases hq : s.find? (fun p => p.1 == k) with
      | none => rfl
      | some p => rw [hq] at hf; exact absurd rfl hf
    have hall := List.find?_eq_none.mp hnone
    constructor
    · unfold mapKeys
      rw [List.map_append]
      rfl
    · intro hk
      obtain ⟨p, hpmem, hpk⟩ := List.mem_map.mp hk
      exact hall p hpmem (by simpa using hpk)

theorem nodup_mapKeys_mapSet (s : List (Nat × Bool)) (k : Nat) (v : Bool)
    (h : (mapKeys s).Nodup) : (mapKeys (mapSet s k v)).Nodup := by
  rcases mapKeys_mapSet s k v with heq | ⟨heq, hnk⟩
  · rw [heq]; exact h
  · rw [heq]
    simp [List.nodup_append, h, hnk]

theorem nodup_keys_update (m : MultiSelectModel) (k : Key)
    (h : (mapKeys m.selected).Nodup) : (mapKeys (m.update k).1.selected).Nodup := by
  cases k with
  | quit => exact h
  | confirm => exact h
  | toggle =>
    simp only [MultiSelectModel.update]
    split
    · exact nodup_mapKeys_mapSet _ _ _ h
    · exact h
  | up =>
    simp only [MultiSelectModel.update]
    split <;> exact h
  | down =>
    simp only [MultiSelectModel.update]
    split <;> exact h

theorem nodup_keys_processEvents (m : MultiSelectModel) (events : List Key)
    (h : (mapKeys m.selected).Nodup) :
    (mapKeys (processEvents m events).selected).Nodup := by
  induction events generalizing m with
  | nil => exact h
  | cons k ks ih =>
    rw [processEvents]
    cases hu : m.update k with
    | mk m2 q =>
      have h2 : (mapKeys m2.selected).Nodup := by
        have hk := nodup_keys_update m k h
        rw [hu] at hk
        exact hk
      cases q with
      | true => exact h2
      | false => exact ih m2 h2

theorem harvestItems_perm_of_perm (m : MultiSelectModel) {o1 o2 : List Nat}
    (h : List.Perm o1 o2) : List.Perm (harvestItems m o1) (harvestItems m o2) :=
  (h.filter _).map _

theorem harvestItems_keys_perm_chosen (m : MultiSelectModel)
    (hnd : (mapKeys m.selected).Nodup) :
    List.Perm (harvestItems m (mapKeys m.selected)) (chosenInOrder m) := by
  unfold harvestItems chosenInOrder
  apply List.Perm.map
  apply (List.perm_ext_iff_of_nodup (hnd.filter _)
    ((List.nodup_range _).filter _)).mpr
  intro a
  simp only [List.mem_filter, List.mem_range]
  constructor
  · rintro ⟨_, hp⟩
    refine ⟨?_, hp⟩
    exact of_decide_eq_true ((Bool.and_eq_true _ _).mp hp).2
  · rintro ⟨_, hp⟩
    refine ⟨?_, hp⟩
    exact mapGet_mem_keys ((Bool.and_eq_true _ _).mp hp).1

/-- Claim C3 counterexample: the harvesting loop iterates a Go
`map[int]bool`, whose iteration order is unspecified.  Toggling indices 0
and 2 of the list ["a","b","c"] and confirming yields the toggled set
{0,2}; under the perfectly legal iteration order [2,0] the confirmed
output is "c,a", not the items in their original list order "a,c". -/
theorem C3_counterexample :
    List.Perm [2, 0] (mapKeys (processEvents (initMulti ["a", "b", "c"])
      [Key.toggle, Key.down, Key.down, Key.toggle, Key.confirm]).selected) ∧
    runInteractiveMultiSelection ["a", "b", "c"]
      [Key.toggle, Key.down, Key.down, Key.toggle, Key.confirm] [2, 0] = .ok "c,a" ∧
    chosenInOrder (processEvents (initMulti ["a", "b", "c"])
      [Key.toggle, Key.down, Key.down, Key.toggle, Key.confirm]) = ["a", "c"] ∧
    (Except.ok "c,a" : Except String String) ≠ .ok "a,c" := by
  refine ⟨by decide, by decide, by decide, by decide⟩

/-- Claim C3 as amended: on Confirm with a non-empty toggled set, the
confirmed output consists of exactly the chosen items, each exactly once,
as a comma-joinable sequence — but in the unspecified map-iteration order:
for every iteration order (any permutation of the selection map's keys)
the harvested items are a permutation of the chosen items in their
original list order, not necessarily that order itself. -/
theorem C3_multiSelection_order (choices : List String) (events : List Key) (order : List Nat)
    (h : List.Perm order (mapKeys (processEvents (initMulti choices) events).selected)) :
    List.Perm (harvestItems (processEvents (initMulti choices) events) order)
      (chosenInOrder (processEvents (initMulti choices) events)) := by
  have hnd : (mapKeys (processEvents (initMulti choices) events).selected).Nodup :=
    nodup_keys_processEvents (initMulti choices) events (by simp [initMulti, mapKeys])
  exact (harvestItems_perm_of_perm _ h).trans (harvestItems_keys_perm_chosen _ hnd)

theorem C3_witness :
    List.Perm
      (harvestItems (processEvents (initMulti ["a", "b", "c"])
        [Key.toggle, Key.down, Key.down, Key.toggle, Key.confirm]) [2, 0])
      (chosenInOrder (processEvents (initMulti ["a", "b", "c"])
        [Key.toggle, Key.down, Key.down, Key.toggle, Key.confirm])) :=
  C3_multiSelection_order ["a", "b", "c"]
    [Key.toggle, Key.down, Key.down, Key.toggle, Key.confirm] [2, 0] (by decide)

/-- Claim C9: confirming a Multi selection while the toggled set is empty
does not produce a confirmed selection with chosen values: whatever the
map-iteration order, `runInteractiveMultiSelection` returns the
empty-selection error ("no items selected"). -/
theorem C9_empty_multi_confirm (choices : List String) (events : List Key) (order : List Nat)
    (hne : choices ≠ [])
    (hdone : (processEvents (initMulti choices) events).done = true)
    (hempty : ∀ i, mapGet (processEvents (initMulti choices) events).selected i = false) :
    runInteractiveMultiSelection choices events order = .error "no items selected" := by
  have h0 : ¬ choices.length = 0 := fun hl => hne (List.length_eq_zero.mp hl)
  have hall : ∀ a ∈ order,
      ¬ ((fun i => mapGet (processEvents (initMulti choices) events).selected i &&
          decide (i < (processEvents (initMulti choices) events).choices.length)) a = true) := by
    intro a _
    simp [hempty a]
  have hitems : harvestItems (processEvents (initMulti choices) events) order = [] := by
    unfold harvestItems
    rw [List.filter_eq_nil_iff.mpr hall]
    rfl
  unfold runInteractiveMultiSelection
  rw [if_neg h0, if_pos hdone, hitems]
  rfl

theorem C9_witness :
    runInteractiveMultiSelection ["a", "b"] [Key.confirm] [] = .error "no items selected" :=
  C9_empty_multi_confirm ["a", "b"] [Key.confirm] [] (by decide) (by decide) (fun i => rfl)
